import Mathlib

/-!
Verification of the heuristic lead-sheet parser (`src/parse.py`) of the
setsight repository.  The Python source is shallowly embedded: strings are
`List Char`, regular expressions become explicit matching functions, the
generator `chord_indicies` becomes a function returning `Option` (Python's
`raise` is `none`), and the per-line loop of `parse_pdf` becomes a step
function on an explicit parse state.
-/

set_option autoImplicit false

namespace Setsight

/-- The whitespace characters discarded by the tokenizer (`' \t\n\r'`,
i.e. the separator set of `tokenise_chords` minus the bar `'|'`). -/
def isWS (c : Char) : Bool :=
  c = ' ' || c = '\t' || c = '\n' || c = '\r'

/-- The separator set `'| \t\n\r'` of `tokenise_chords`. -/
def isSep (c : Char) : Bool :=
  c = '|' || isWS c

/-- Opening-bracket character literals, written via code points so that no
brace appears literally in the file. -/
def lbrace : Char := Char.ofNat 123

/-- Closing brace character. -/
def rbrace : Char := Char.ofNat 125

/-- The `brackets` mapping of `tokenise_chords`: an opening bracket maps to
the closer the scanner will wait for. -/
def openBracket (c : Char) : Option Char :=
  if c = '(' then some ')'
  else if c = '[' then some ']'
  else if c = lbrace then some rbrace
  else none

/-- Python `if chord: chords.append(''.join(chord))` — flush the buffer if it is
nonempty. -/
def flushTok (buf : List Char) : List (List Char) :=
  match buf with
  | [] => []
  | b :: bs => [b :: bs]

/-- The character scan of `tokenise_chords`: `buf` is the current token
buffer (`chord` in the source), `closer` the awaited closing bracket. -/
def tokAux : List Char → List Char → Option Char → List (List Char)
  | [], buf, _ => flushTok buf
  | c :: cs, buf, some cl => tokAux cs (buf ++ [c]) (if c = cl then none else some cl)
  | c :: cs, buf, none =>
    match openBracket c with
    | some cl => tokAux cs (buf ++ [c]) (some cl)
    | none =>
      if isSep c then
        flushTok buf ++ (if c = '|' then [['|']] else []) ++ tokAux cs [] none
      else
        tokAux cs (buf ++ [c]) none

/-- Model of `tokenise_chords`: split a chord line into tokens. -/
def tokenise_chords (line : List Char) : List (List Char) :=
  tokAux line [] none

/-- Python's `s.find(t)` on lists: index of the first occurrence of `t` as a
contiguous sublist of `s`, or `none` (Python's `-1`). -/
def findSub (t : List Char) : List Char → Option Nat
  | [] => if t.isPrefixOf ([] : List Char) then some 0 else none
  | c :: s => if t.isPrefixOf (c :: s) then some 0
              else (findSub t s).map (fun n => n + 1)

/-- The loop of `chord_indicies`: locate each token in the unconsumed suffix
of the line, `none` modelling the `raise` when a token cannot be found. -/
def chordIndiciesAux (line : List Char) : Nat → List (List Char) → Option (List (Nat × List Char))
  | _, [] => some []
  | i, t :: ts =>
    match findSub t (line.drop i) with
    | none => none
    | some j =>
      (chordIndiciesAux line (i + j + t.length) ts).map (fun r => (i + j, t) :: r)

/-- Model of `chord_indicies`, fully materialised (the Python
generator is consumed eagerly by its callers). -/
def chord_indicies (line : List Char) : Option (List (Nat × List Char)) :=
  chordIndiciesAux line 0 (tokenise_chords line)

/-- A well-formed token: nonempty, and its first character is not tokenizer
whitespace. Every token emitted by `tokenise_chords` satisfies this. -/
def goodTok (t : List Char) : Prop :=
  ∃ c t2, t = c :: t2 ∧ isWS c = false

/-- Predicate `Covers s ts`: the tokens `ts` appear in `s` in order, separated (and
surrounded) by whitespace only.  This is the precise layout the tokenizer
guarantees for the suffix of the line it has not yet consumed. -/
def Covers : List Char → List (List Char) → Prop
  | s, [] => ∀ c ∈ s, isWS c = true
  | s, t :: ts => ∃ k rest, (∀ c ∈ s.take k, isWS c = true) ∧
      s.drop k = t ++ rest ∧ Covers rest ts

/-- Scanner-state invariant: an empty buffer never awaits a closing bracket,
and a nonempty buffer starts with a non-whitespace character. -/
def ScanInv (buf : List Char) (closer : Option Char) : Prop :=
  (buf = [] → closer = none) ∧ ∀ c t2, buf = c :: t2 → isWS c = false

/-- Reassemble a line from `(offset, token)` pairs, filling the gaps with
the original characters of the line (the "inter-token whitespace"). -/
def reconstruct (line : List Char) : Nat → List (Nat × List Char) → List Char
  | i, [] => line.drop i
  | i, (p, t) :: rest => (line.drop i).take (p - i) ++ t ++ reconstruct line (p + t.length) rest

/-- Offsets are true positions and gaps hold only whitespace: each pair
`(p, t)` satisfies `line[p : p + len t] = t`, the characters skipped
between consumed positions are whitespace, and so is the trailing gap. -/
def reconOK (line : List Char) : Nat → List (Nat × List Char) → Bool
  | i, [] => (line.drop i).all isWS
  | i, (p, t) :: rest =>
    decide (i ≤ p) && ((line.drop i).take (p - i)).all isWS
      && ((line.drop p).take t.length == t) && reconOK line (p + t.length) rest

/-- A closing-bracket character of the tokenizer's bracket table. -/
def isCloseBr (c : Char) : Bool := c = ')' || c = ']' || c = rbrace

/-- Bracket-depth scan: `wellBracketed` holds when the line has no nested
brackets (an opener only at depth 0) and no unmatched brackets (a closer
only at depth 1, and depth 0 at end of line). -/
def wbAux : List Char → Nat → Bool
  | [], d => d == 0
  | c :: cs, d =>
    if (openBracket c).isSome then decide (d = 0) && wbAux cs (d + 1)
    else if isCloseBr c then decide (d = 1) && wbAux cs (d - 1)
    else wbAux cs d

/-- A line with no nested and no unmatched brackets. -/
def wellBracketed (line : List Char) : Bool := wbAux line 0

/-!
The chord grammar `RE.CHORD`.  The regex is an alternation
`^(nochords)|(note)(third)(fifth)(number)(subtraction)(altered)(suspension)(addition)(bass)$`:
because of regex alternation precedence the first branch carries only the
`^` anchor and the second branch only the `$` anchor (both branches are
start-anchored because the source always uses `RE.CHORD.match`).  The
match is modelled by existence of a successful parse: every group maps a
remainder to the list of remainders it can leave, and the second branch
succeeds when some composition of choices consumes the whole token.
Priority between choices is irrelevant for a Boolean match.
-/

/-- Root-note class `[A-JZ]` of the chord regex (note: wider than the
`A`–`G` range the spec describes). -/
def isRoot (c : Char) : Bool := ('A' ≤ c && c ≤ 'J') || c = 'Z'

/-- The accidental class `[♯♭b#]`. -/
def isAccidental (c : Char) : Bool := c = '♯' || c = '♭' || c = 'b' || c = '#'

/-- Remainders after the optional single character `X?`. -/
def optChar (p : Char → Bool) (cs : List Char) : List (List Char) :=
  match cs with
  | c :: rest => if p c then [rest, cs] else [cs]
  | [] => [cs]

/-- Remainders after consuming one of the literal alternatives. -/
def altsRem (alts : List (List Char)) (cs : List Char) : List (List Char) :=
  alts.filterMap (fun a => if a.isPrefixOf cs then some (cs.drop a.length) else none)

def isDigitCh (c : Char) : Bool := '0' ≤ c && c ≤ '9'

/-- Length of the leading digit run. -/
def digitRun : List Char → Nat
  | c :: cs => if isDigitCh c then digitRun cs + 1 else 0
  | [] => 0

/-- Remainders after `\d+` (consume between 1 and all leading digits). -/
def digitsPlus (cs : List Char) : List (List Char) :=
  (List.range (digitRun cs)).map (fun j => cs.drop (j + 1))

/-- Remainders after `\d*`. -/
def digitsStar (cs : List Char) : List (List Char) :=
  cs :: digitsPlus cs

/-- Group `(?P<note>[A-JZ][♯♭b#]?)` — the only non-optional group. -/
def noteG (cs : List Char) : List (List Char) :=
  match cs with
  | c :: rest => if isRoot c then optChar isAccidental rest else []
  | [] => []

/-- Group `(?P<third>mM|min|MIN|Min|maj|MAJ|Maj|m|M)?`. -/
def thirdG (cs : List Char) : List (List Char) :=
  altsRem (["mM", "min", "MIN", "Min", "maj", "MAJ", "Maj", "m", "M"].map String.data) cs
    ++ [cs]

/-- Group `(?P<fifth>aug|AUG|dim|DIM|\+|ø|°)?`. -/
def fifthG (cs : List Char) : List (List Char) :=
  altsRem (["aug", "AUG", "dim", "DIM", "+", "ø", "°"].map String.data) cs ++ [cs]

/-- Group `(?P<number>\(?(?:dom|DOM)?\d+\)?)?`. -/
def numberG (cs : List Char) : List (List Char) :=
  ((((optChar (fun c => c = '(') cs).flatMap
      (fun r => altsRem (["dom", "DOM"].map String.data) r ++ [r])).flatMap
    digitsPlus).flatMap (optChar (fun c => c = ')'))) ++ [cs]

/-- Group `(?P<subtraction>\(?no3r?d?\)?)?`. -/
def subtractionG (cs : List Char) : List (List Char) :=
  (((((optChar (fun c => c = '(') cs).flatMap
      (altsRem (["no3"].map String.data))).flatMap
    (optChar (fun c => c = 'r'))).flatMap
    (optChar (fun c => c = 'd'))).flatMap (optChar (fun c => c = ')'))) ++ [cs]

/-- Group `(?P<altered>[♯♭b#\-\+]\d+)?`. -/
def alteredG (cs : List Char) : List (List Char) :=
  (match cs with
   | c :: rest => if isAccidental c || c = '-' || c = '+' then digitsPlus rest else []
   | [] => []) ++ [cs]

/-- Group `(?P<suspension>(?:sus|SUS)\d*)?`. -/
def suspensionG (cs : List Char) : List (List Char) :=
  ((altsRem (["sus", "SUS"].map String.data) cs).flatMap digitsStar) ++ [cs]

/-- Group `(?P<addition>(?:add|ADD|/)\d+)?`. -/
def additionG (cs : List Char) : List (List Char) :=
  ((altsRem (["add", "ADD", "/"].map String.data) cs).flatMap digitsPlus) ++ [cs]

/-- Group `(?P<bass>/[A-JZ][♯♭b#]?)?`. -/
def bassG (cs : List Char) : List (List Char) :=
  (match cs with
   | '/' :: c :: rest => if isRoot c then optChar isAccidental rest else []
   | _ => []) ++ [cs]

/-- The second alternation branch, end-anchored by `$`: some composition of
group choices consumes the entire token. -/
def chordBody (t : List Char) : Bool :=
  (((((((((noteG t).flatMap thirdG).flatMap fifthG).flatMap numberG).flatMap
    subtractionG).flatMap alteredG).flatMap suspensionG).flatMap additionG).flatMap bassG).any
    List.isEmpty

/-- Tail `\.?[Cc]` (the trailing `\.?` of the nochords branch always succeeds and
is irrelevant to the match). -/
def ncTail (cs : List Char) : Bool :=
  match cs with
  | '.' :: c :: _ => c = 'C' || c = 'c'
  | c :: _ => c = 'C' || c = 'c'
  | [] => false

/-- Group `(?P<nochords>[Nn]\.?[Cc]\.?)` — start-anchored only: succeeding on a
prefix of the token is enough, whatever follows. -/
def nochords (cs : List Char) : Bool :=
  match cs with
  | n :: rest => (n = 'N' || n = 'n') && ncTail rest
  | [] => false

/-- Model of `RE.CHORD.match(token)` as a Boolean. -/
def chordMatch (t : List Char) : Bool := nochords t || chordBody t

/-- Per-token test of `is_chord_line`: a bar, a token that starts with `(`
or ends with `)`, or a chord-grammar match.  (An empty token — which
`tokenise_chords` never produces — counts as non-chordish here, where the
Python `t[0]` would raise.) -/
def tokenChordish (t : List Char) : Bool :=
  if t = ['|'] then true
  else if t.head? = some '(' || t.getLast? = some ')' then true
  else chordMatch t

/-- Model of `is_chord_line`: strict majority of chordish tokens. -/
def is_chord_line (tokens : List (List Char)) : Bool :=
  decide (tokens.countP tokenChordish > tokens.countP (fun t => !tokenChordish t))

/-- Python's `itertools.zip_longest` on two character lists, `none` being
the `None` fill value. -/
def zipLongest : List Char → List Char → List (Option Char × Option Char)
  | [], cs => cs.map (fun c => (none, some c))
  | s :: ss, [] => (some s, none) :: zipLongest ss []
  | s :: ss, c :: cs => (some s, some c) :: zipLongest ss cs

/-- The per-column branch of `fix_superscript_line`: which entries get
appended to `out` (entries may be the `None` fill value, which Python
appends unchecked). -/
def supStep : Option Char × Option Char → List (Option Char)
  | (none, c) => [c]
  | (some s, c) =>
    if s = ' ' then [c]
    else if c = some ' ' then [some s]
    else [some s, c]

/-- Python `''.join(out)`: joining a list that contains `None` raises a
`TypeError` in Python, modelled as `none`. -/
def pyJoin : List (Option Char) → Option (List Char)
  | [] => some []
  | none :: _ => none
  | some c :: rest => (pyJoin rest).map (fun l => c :: l)

/-- Model of `fix_superscript_line`. -/
def fix_superscript_line (superscript chords : List Char) : Option (List Char) :=
  pyJoin ((zipLongest superscript chords).flatMap supStep)

/-- Python's default `str.strip` whitespace set. -/
def isPyWS (c : Char) : Bool :=
  c = ' ' || c = '\t' || c = '\n' || c = '\r' || c = '\x0b' || c = '\x0c'

/-- Python `str.lstrip()`. -/
def pyStripLeft (cs : List Char) : List Char := cs.dropWhile isPyWS

/-- Python `str.rstrip()`. -/
def pyStripRight (cs : List Char) : List Char := (cs.reverse.dropWhile isPyWS).reverse

/-- Python `str.strip()`. -/
def pyStrip (cs : List Char) : List Char := pyStripLeft (pyStripRight cs)

/-- Length of the run of `' '` characters at the head of the list. -/
def spaceRun : List Char → Nat
  | ' ' :: r => spaceRun r + 1
  | _ => 0

/-- Rendering of a bracketed directive token as a ChordPro comment. -/
def commentTok (tok : List Char) : List Char :=
  lbrace :: ("comment:".data ++ tok ++ [rbrace])

/-- The merge loop of `chordpro_line`: `chords` is the not-yet-emitted
suffix of the indexed chord tokens (the `(-1, None)` sentinel of the
source is list exhaustion), the lyric character stream is `lyric.get? i`
(`none` past the end), `outRev` is the output accumulator in reverse.
The loop always terminates; the `fuel` parameter only serves the
termination checker and is chosen large enough by `chordpro_line`. -/
def mergeLoop (lyric : List Char) :
    Nat → List (Nat × List Char) → Nat → Option Char → List (List Char) →
    Option (List (List Char))
  | 0, _, _, _, _ => none
  | fuel + 1, chords, i, lastChar, outRev =>
    match chords with
    | [] =>
      match lyric.get? i with
      | none => some outRev
      | some ch => mergeLoop lyric fuel [] (i + 1) (some ch) ([ch] :: outRev)
    | (idx, tok) :: rest =>
      if i = idx then
        let char := lyric.get? i
        let outRev2 :=
          if tok.head? = some '(' ∧ tok.getLast? = some ')' then
            commentTok tok :: outRev
          else if (match outRev.head? with
                   | some prev => prev.getLast? == some ']'
                   | none => false : Bool) then
            ('[' :: (tok ++ [']'])) :: [' '] :: outRev
          else if char = some ' ' ∧ lastChar ≠ some ' ' then
            ('[' :: (tok ++ [']'])) :: [' '] :: outRev
          else
            ('[' :: (tok ++ [']'])) :: outRev
        let k := min (spaceRun (lyric.drop i)) tok.length
        let lastChar2 := if k = 0 then lastChar else some ' '
        mergeLoop lyric fuel rest (i + k) lastChar2 outRev2
      else
        match lyric.get? i with
        | none => mergeLoop lyric fuel chords (i + 1) (some ' ') ([' '] :: outRev)
        | some ch => mergeLoop lyric fuel chords (i + 1) (some ch) ([ch] :: outRev)

/-- Model of `re.sub(r'    +', '    ', s)`: collapse every run of four or more
spaces to exactly four (`n` counts the current run). -/
def collapseGo : List Char → Nat → List Char
  | [], n => List.replicate (min n 4) ' '
  | c :: cs, n =>
    if c = ' ' then collapseGo cs (n + 1)
    else List.replicate (min n 4) ' ' ++ c :: collapseGo cs 0

def collapseSpaces (cs : List Char) : List Char := collapseGo cs 0

/-- Model of `chordpro_line`.  `none` models the propagated
internal-consistency failure of `chord_indicies` (or exhausted fuel, which
never happens for the generous bound used). -/
def chordpro_line (chord_line lyric_line : List Char) : Option (List Char) :=
  if chord_line.isEmpty then some lyric_line
  else if lyric_line.isEmpty then some chord_line
  else
    match chord_indicies chord_line with
    | none => none
    | some pairs =>
      match mergeLoop lyric_line
          (lyric_line.length + chord_line.length + pairs.length + 8) pairs 0 none [] with
      | none => none
      | some outRev => some (pyStrip (collapseSpaces outRev.reverse.flatten))

/-!
The preamble / structure regexes and the `parse_pdf` line scan.

`RE.KEY`, `RE.TIME`, `RE.TEMPO` and `RE.CCLI` are `search`ed (leftmost
match position), `RE.SECTION` is `match`ed (position 0 only).  The `\s+`
and `\d+` atoms are always followed by a character class disjoint from
them, so the greedy maximal run is the only possible backtracking choice
and `takeWhile`/`dropWhile` model them exactly.
-/

/-- Case-insensitive comparison against a lowercase pattern letter
(`re.I`). -/
def ciEq (c target : Char) : Bool := Char.toLower c = target

/-- Atom `\s+[-:]\s+` — whitespace, a dash or colon, whitespace; returns the
remainder after the second whitespace run. -/
def sepWs (rest : List Char) : Option (List Char) :=
  if (rest.takeWhile isPyWS).isEmpty then none
  else
    match rest.dropWhile isPyWS with
    | sep :: r2 =>
      if sep = '-' ∨ sep = ':' then
        if (r2.takeWhile isPyWS).isEmpty then none
        else some (r2.dropWhile isPyWS)
      else none
    | [] => none

/-- Class `[A-G]` under `re.I`. -/
def isKeyNote (c : Char) : Bool := ('A' ≤ c && c ≤ 'G') || ('a' ≤ c && c ≤ 'g')

/-- Class `[#b]` under `re.I`. -/
def isKeyAcc (c : Char) : Bool := c = '#' || c = 'b' || c = 'B'

/-- Attempt of `key\s+[-:]\s+([A-G][#b]?)` at the current position,
returning the capture group. -/
def matchKeyAt : List Char → Option (List Char)
  | k :: e :: y :: rest =>
    if ciEq k 'k' && ciEq e 'e' && ciEq y 'y' then
      match sepWs rest with
      | none => none
      | some r =>
        match r with
        | n :: r3 =>
          if isKeyNote n then
            some (n :: (match r3 with
              | a :: _ => if isKeyAcc a then [a] else []
              | [] => []))
          else none
        | [] => none
    else none
  | _ => none

/-- Attempt of `time\s+[-:]\s+(\d+/\d+)` at the current position. -/
def matchTimeAt : List Char → Option (List Char)
  | c1 :: c2 :: c3 :: c4 :: rest =>
    if ciEq c1 't' && ciEq c2 'i' && ciEq c3 'm' && ciEq c4 'e' then
      match sepWs rest with
      | none => none
      | some r =>
        let d1 := r.takeWhile isDigitCh
        if d1.isEmpty then none
        else
          match r.dropWhile isDigitCh with
          | '/' :: r2 =>
            let d2 := r2.takeWhile isDigitCh
            if d2.isEmpty then none else some (d1 ++ '/' :: d2)
          | _ => none
    else none
  | _ => none

/-- Attempt of `tempo\s+[-:]\s+(\d+)` at the current position. -/
def matchTempoAt : List Char → Option (List Char)
  | c1 :: c2 :: c3 :: c4 :: c5 :: rest =>
    if ciEq c1 't' && ciEq c2 'e' && ciEq c3 'm' && ciEq c4 'p' && ciEq c5 'o' then
      match sepWs rest with
      | none => none
      | some r =>
        let d := r.takeWhile isDigitCh
        if d.isEmpty then none else some d
    else none
  | _ => none

/-- Atom ` ?` — an optional single literal space (the following regex atom is
never a space, so consuming it when present is the only viable choice). -/
def optSpace (cs : List Char) : List Char :=
  match cs with
  | ' ' :: r => r
  | _ => cs

/-- Atom `\d+` as a capture that must be nonempty. -/
def digitCap (cs : List Char) : Option (List Char) :=
  match cs with
  | d :: r => if isDigitCh d then some (d :: r.takeWhile isDigitCh) else none
  | [] => none

/-- Attempt of `CCLI ?Song ?# ?(\d+)` (`re.I`) at the current position. -/
def matchCcliAt : List Char → Option (List Char)
  | c1 :: c2 :: c3 :: c4 :: rest =>
    if ciEq c1 'c' && ciEq c2 'c' && ciEq c3 'l' && ciEq c4 'i' then
      match optSpace rest with
      | s1 :: s2 :: s3 :: s4 :: r2 =>
        if ciEq s1 's' && ciEq s2 'o' && ciEq s3 'n' && ciEq s4 'g' then
          match optSpace r2 with
          | '#' :: r4 => digitCap (optSpace r4)
          | _ => none
        else none
      | _ => none
    else none
  | _ => none

/-- Model of `re.search`: try the matcher at each position, left to right, returning
the match position and the capture. -/
def searchAux (m : List Char → Option (List Char)) : List Char → Nat → Option (Nat × List Char)
  | [], _ => none
  | c :: rest, pos =>
    match m (c :: rest) with
    | some cap => some (pos, cap)
    | none => searchAux m rest (pos + 1)

def reSearch (m : List Char → Option (List Char)) (line : List Char) : Option (Nat × List Char) :=
  searchAux m line 0

/-- Case-insensitive literal-prefix test. -/
def startsWithCI : List Char → List Char → Bool
  | [], _ => true
  | _ :: _, [] => false
  | p :: ps, c :: cs => ciEq c p && startsWithCI ps cs

def sectionKeywords : List (List Char) :=
  ["verse", "chorus", "bridge", "pre-chorus", "instrumental", "interlude"].map String.data

/-- Model of `RE.SECTION.match(line)` as a Boolean: `re.match` anchors the
alternation of keywords at position 0, so the line must *start* with one
of them (case-insensitively). -/
def sectionMatch (line : List Char) : Bool :=
  sectionKeywords.any (fun k => startsWithCI k line)

/-- Python `line.strip().isdigit()`. -/
def isdigitStr (cs : List Char) : Bool := !cs.isEmpty && cs.all isDigitCh

/-- Python truthiness of an optional string (`None` and `""` are falsy). -/
def pyTruthyOpt (o : Option (List Char)) : Bool :=
  match o with
  | some s => !s.isEmpty
  | none => false

/-- The `song` dict built by `parse_pdf` (sections still in raw
chord/lyric-pair form; the final ChordPro rendering pass is not part of
the per-line scan). -/
structure Song where
  title : Option (List Char)
  key : Option (List Char)
  tempo : Option (List Char)
  author : Option (List Char)
  time : Option (List Char)
  ccli : Option (List Char)
  legal : List Char
  sections : List (List Char × List (Option (List Char) × Option (List Char)))
  type : List Char
deriving DecidableEq

/-- The loop-carried variables of the `parse_pdf` scan. -/
structure ParseState where
  song : Song
  sectionName : Option (List Char)
  sectionLines : List (Option (List Char) × Option (List Char))
  chordLine : Option (List Char)
  superscriptLine : Option (List Char)
deriving DecidableEq

/-- Model of `OrderedDict` assignment: overwrite in place if the key exists,
otherwise append (first-seen order preserved). -/
def odSet (m : List (List Char × List (Option (List Char) × Option (List Char))))
    (k : List Char) (v : List (Option (List Char) × Option (List Char))) :
    List (List Char × List (Option (List Char) × Option (List Char))) :=
  match m with
  | [] => [(k, v)]
  | (k0, v0) :: rest => if k0 = k then (k0, v) :: rest else (k0, v0) :: odSet rest k v

/-- One iteration of the `for line in lines` loop of `parse_pdf`.  `none`
models a crash inside the iteration (only possible in the
`fix_superscript_line` call). -/
def parseLine (s : ParseState) (line : List Char) : Option ParseState :=
  if pyTruthyOpt s.song.ccli then
    some { s with song := { s.song with legal := s.song.legal ++ line } }
  else
    match reSearch matchCcliAt line with
    | some (_, num) =>
      some { s with song := { s.song with ccli := some num, legal := s.song.legal ++ line } }
    | none =>
      if sectionMatch line then
        let s1 :=
          if pyTruthyOpt s.sectionName then
            { s with song := { s.song with sections :=
                (odSet s.song.sections (s.sectionName.getD [])
                  (if pyTruthyOpt s.chordLine then s.sectionLines ++ [(s.chordLine, none)]
                   else s.sectionLines)) } }
          else s
        some { s1 with
                chordLine := none
                sectionName := some (pyStrip line)
                sectionLines := [] }
      else if is_chord_line (tokenise_chords line) then
        let sn := if pyTruthyOpt s.sectionName then s.sectionName else some ("VERSE 1".data)
        match s.superscriptLine with
        | some sup =>
          match fix_superscript_line sup (pyStripRight line) with
          | none => none
          | some merged =>
            some { s with
                    sectionName := sn
                    chordLine := some merged
                    superscriptLine := none }
        | none => some { s with sectionName := sn, chordLine := some (pyStripRight line) }
      else if pyTruthyOpt s.sectionName then
        if isdigitStr (pyStrip line) then
          some { s with superscriptLine := some line }
        else
          some { s with
                  sectionLines := s.sectionLines ++ [(s.chordLine, some (pyStripRight line))]
                  chordLine := none }
      else
        match reSearch matchKeyAt line with
        | some (pos, cap) =>
          some { s with song := { s.song with
                  key := some cap
                  title := some (pyStrip (line.take pos)) } }
        | none =>
          match reSearch matchTimeAt line with
          | some (pos, cap) =>
            match reSearch matchTempoAt line with
            | some (tpos, tcap) =>
              some { s with song := { s.song with
                      time := some cap
                      tempo := some tcap
                      author := some (pyStrip (line.take tpos)) } }
            | none =>
              some { s with song := { s.song with
                      time := some cap
                      author := some (pyStrip (line.take pos)) } }
          | none => some s

/-- The whole line scan (crash propagating). -/
def parseLines (s : ParseState) : List (List Char) → Option ParseState
  | [] => some s
  | l :: ls =>
    match parseLine s l with
    | none => none
    | some s2 => parseLines s2 ls

/-- The freshly initialised `song` dict and loop variables. -/
def initState : ParseState :=
  { song := { title := none
              key := none
              tempo := none
              author := none
              time := none
              ccli := none
              legal := []
              sections := []
              type := "pdf".data }
    sectionName := none
    sectionLines := []
    chordLine := none
    superscriptLine := none }

/-- A state with an open section and a pending chord line. -/
def c1State : ParseState :=
  { initState with
    sectionName := some ("VERSE 1".data)
    sectionLines := [(some ("C".data), some ("la la".data))]
    chordLine := some ("G".data) }

theorem openBracket_not_ws {c : Char} (h : (openBracket c).isSome) : isWS c = false := by
  unfold openBracket at h
  by_cases h1 : c = '(' <;> by_cases h2 : c = '[' <;> by_cases h3 : c = lbrace <;>
    simp [h1, h2, h3] at h ⊢ <;> subst_vars <;> rfl

theorem isSep_false_ws {c : Char} (h : isSep c = false) : isWS c = false := by
  unfold isSep at h
  simp only [Bool.or_eq_false_iff] at h
  exact h.2

theorem scaninv_nil : ScanInv [] none :=
  ⟨fun _ => rfl, by intro c t2 h; cases h⟩

theorem scaninv_append {buf : List Char} {c : Char} {cl cl2 : Option Char}
    (h : ScanInv buf cl) (hc : buf = [] → isWS c = false) :
    ScanInv (buf ++ [c]) cl2 := by
  constructor
  · intro habs
    exact absurd habs (by cases buf <;> simp)
  · intro d ds hds
    cases buf with
    | nil =>
      simp only [List.nil_append] at hds
      cases hds
      exact hc rfl
    | cons b bs =>
      rw [List.cons_append] at hds
      injection hds with h1 h2
      exact h1 ▸ h.2 b bs rfl

theorem tok_good : ∀ (cs buf : List Char) (closer : Option Char), ScanInv buf closer →
    ∀ t ∈ tokAux cs buf closer, goodTok t := by
  intro cs
  induction cs with
  | nil =>
    intro buf closer hinv t ht
    cases buf with
    | nil => simp [tokAux, flushTok] at ht
    | cons b bs =>
      simp only [tokAux, flushTok, List.mem_singleton] at ht
      subst ht
      exact ⟨b, bs, rfl, hinv.2 b bs rfl⟩
  | cons c cs ih =>
    intro buf closer hinv t ht
    cases closer with
    | some cl =>
      simp only [tokAux] at ht
      refine ih (buf ++ [c]) _ (scaninv_append hinv ?_) t ht
      intro hb
      exact absurd (hinv.1 hb) (by simp)
    | none =>
      simp only [tokAux] at ht
      cases hob : openBracket c with
      | some cl =>
        rw [hob] at ht
        exact ih (buf ++ [c]) (some cl) (scaninv_append hinv
          (fun _ => openBracket_not_ws (by simp [hob]))) t ht
      | none =>
        rw [hob] at ht
        by_cases hsep : isSep c
        · rw [if_pos hsep] at ht
          simp only [List.mem_append] at ht
          rcases ht with (ht | ht) | ht
          · cases buf with
            | nil => simp [flushTok] at ht
            | cons b bs =>
              simp only [flushTok, List.mem_singleton] at ht
              subst ht
              exact ⟨b, bs, rfl, hinv.2 b bs rfl⟩
          · by_cases hbar : c = '|' <;> simp [hbar] at ht
            subst ht
            exact ⟨'|', [], rfl, by decide⟩
          · exact ih [] none scaninv_nil t ht
        · rw [if_neg hsep] at ht
          exact ih (buf ++ [c]) none (scaninv_append hinv
            (fun _ => isSep_false_ws (by simpa using hsep))) t ht

theorem covers_ws_cons {c : Char} {s : List Char} {ts : List (List Char)}
    (hc : isWS c = true) (h : Covers s ts) : Covers (c :: s) ts := by
  cases ts with
  | nil =>
    intro x hx
    rcases List.mem_cons.mp hx with h1 | h1
    · subst h1; exact hc
    · exact h x h1
  | cons t ts =>
    obtain ⟨k, rest, hgap, hdrop, hrest⟩ := h
    exact ⟨k + 1, rest, by
      intro x hx
      simp only [List.take_succ_cons] at hx
      rcases List.mem_cons.mp hx with h1 | h1
      · subst h1; exact hc
      · exact hgap x h1, by simpa using hdrop, hrest⟩

theorem tok_covers : ∀ (cs buf : List Char) (closer : Option Char),
    Covers (buf ++ cs) (tokAux cs buf closer) := by
  intro cs
  induction cs with
  | nil =>
    intro buf closer
    cases buf with
    | nil => intro c hc; simp at hc
    | cons b bs =>
      show Covers ((b :: bs) ++ []) [b :: bs]
      exact ⟨0, [], by simp, by simp, by intro c hc; simp at hc⟩
  | cons c cs ih =>
    intro buf closer
    have hshift : buf ++ c :: cs = (buf ++ [c]) ++ cs := by
      rw [List.append_assoc, List.singleton_append]
    cases closer with
    | some cl =>
      show Covers _ (tokAux cs (buf ++ [c]) _)
      rw [hshift]
      exact ih (buf ++ [c]) _
    | none =>
      simp only [tokAux]
      cases hob : openBracket c with
      | some cl =>
        rw [hshift]
        exact ih (buf ++ [c]) (some cl)
      | none =>
        by_cases hsep : isSep c
        · rw [if_pos hsep]
          have hbarcase : Covers (c :: cs) ((if c = '|' then [['|']] else []) ++ tokAux cs [] none) := by
            by_cases hbar : c = '|'
            · subst hbar
              rw [if_pos rfl]
              exact ⟨0, cs, by simp, by simp, ih [] none⟩
            · have hws : isWS c = true := by
                unfold isSep at hsep
                simpa [hbar] using hsep
              rw [if_neg hbar]
              simp only [List.nil_append]
              exact covers_ws_cons hws (ih [] none)
          cases buf with
          | nil =>
            simpa [flushTok] using hbarcase
          | cons b bs =>
            show Covers ((b :: bs) ++ c :: cs)
              ((b :: bs) :: ((if c = '|' then [['|']] else []) ++ tokAux cs [] none))
            exact ⟨0, c :: cs, by simp, by simp, hbarcase⟩
        · rw [if_neg hsep, hshift]
          exact ih (buf ++ [c]) none

theorem find_at : ∀ (k : Nat) (s t rest : List Char),
    (∀ c ∈ s.take k, isWS c = true) → s.drop k = t ++ rest → goodTok t →
    findSub t s = some k := by
  intro k
  induction k with
  | zero =>
    intro s t rest hgap hdrop hgt
    obtain ⟨th, t2, rfl, hth⟩ := hgt
    rw [List.drop_zero] at hdrop
    subst hdrop
    rw [List.cons_append]
    show (if (th :: t2).isPrefixOf (th :: (t2 ++ rest)) then some 0
          else (findSub (th :: t2) (t2 ++ rest)).map (fun n => n + 1)) = some 0
    rw [if_pos]
    rw [ List.isPrefixOf_iff_prefix, ← List.cons_append]
    exact List.prefix_append _ _
  | succ k ihk =>
    intro s t rest hgap hdrop hgt
    cases s with
    | nil =>
      rw [List.drop_nil] at hdrop
      obtain ⟨th, t2, rfl, _⟩ := hgt
      cases hdrop
    | cons c s =>
      have hc : isWS c = true := hgap c (by simp [List.take_succ_cons])
      have hgap2 : ∀ x ∈ s.take k, isWS x = true := by
        intro x hx
        exact hgap x (by simp [List.take_succ_cons, hx])
      have hdrop2 : s.drop k = t ++ rest := by simpa using hdrop
      have hpre : ¬ (t.isPrefixOf (c :: s) = true) := by
        obtain ⟨th, t2, rfl, hth⟩ := hgt
        rw [ List.isPrefixOf_iff_prefix]
        intro habs
        have := (List.cons_prefix_cons.mp habs).1
        rw [this, hc] at hth
        cases hth
      show (if t.isPrefixOf (c :: s) then some 0
          else (findSub t s).map (fun n => n + 1)) = some (k + 1)
      rw [if_neg hpre, ihk s t rest hgap2 hdrop2 hgt]
      rfl

theorem indices_exact : ∀ (ts : List (List Char)) (line : List Char) (i : Nat),
    Covers (line.drop i) ts → (∀ t ∈ ts, goodTok t) →
    ∃ pairs, chordIndiciesAux line i ts = some pairs ∧
      reconstruct line i pairs = line.drop i ∧ reconOK line i pairs = true := by
  intro ts
  induction ts with
  | nil =>
    intro line i hcov _
    refine ⟨[], rfl, rfl, ?_⟩
    exact List.all_eq_true.mpr hcov
  | cons t ts ih =>
    intro line i hcov hgood
    obtain ⟨k, rest, hgap, hdropk, hrest⟩ := hcov
    have hfind : findSub t (line.drop i) = some k :=
      find_at k (line.drop i) t rest hgap hdropk (hgood t (by simp))
    have hik : line.drop (i + k) = t ++ rest := by
      rw [← hdropk, List.drop_drop]
    have hrest2 : line.drop (i + k + t.length) = rest := by
      have h1 : (line.drop (i + k)).drop t.length = (t ++ rest).drop t.length := by rw [hik]
      rw [List.drop_drop, List.drop_left] at h1
      exact h1
    have hcov2 : Covers (line.drop (i + k + t.length)) ts := by rw [hrest2]; exact hrest
    obtain ⟨pairs, hp1, hp2, hp3⟩ := ih line (i + k + t.length) hcov2
      (fun x hx => hgood x (by simp [hx]))
    refine ⟨(i + k, t) :: pairs, ?_, ?_, ?_⟩
    · show (match findSub t (line.drop i) with
        | none => none
        | some j => (chordIndiciesAux line (i + j + t.length) ts).map
            (fun r => (i + j, t) :: r)) = some ((i + k, t) :: pairs)
      rw [hfind]
      show (chordIndiciesAux line (i + k + t.length) ts).map (fun r => (i + k, t) :: r)
        = some ((i + k, t) :: pairs)
      rw [hp1]
      rfl
    · show (line.drop i).take (i + k - i) ++ t ++ reconstruct line (i + k + t.length) pairs
        = line.drop i
      rw [hp2, hrest2]
      have hsub : i + k - i = k := by omega
      rw [hsub]
      conv_rhs => rw [← List.take_append_drop k (line.drop i)]
      rw [hdropk, List.append_assoc]
    · show (decide (i ≤ i + k) && ((line.drop i).take (i + k - i)).all isWS
        && ((line.drop (i + k)).take t.length == t)
        && reconOK line (i + k + t.length) pairs) = true
      have hsub : i + k - i = k := by omega
      rw [hsub, hp3, hik, List.take_left]
      simp [List.all_eq_true.mpr hgap]

/-- Helper: the tokens of any line are well formed and cover the line. -/
theorem tokenise_covers (line : List Char) : Covers line (tokenise_chords line) := by
  have h := tok_covers line [] none
  simpa using h

theorem tokenise_good (line : List Char) : ∀ t ∈ tokenise_chords line, goodTok t :=
  tok_good line [] none scaninv_nil

theorem tokenise_indexed (line : List Char) :
    ∃ pairs, chord_indicies line = some pairs ∧
      reconstruct line 0 pairs = line ∧ reconOK line 0 pairs = true := by
  obtain ⟨pairs, hp1, hp2, hp3⟩ := indices_exact (tokenise_chords line) line 0
    (by rw [List.drop_zero]; exact tokenise_covers line) (tokenise_good line)
  rw [List.drop_zero] at hp2
  exact ⟨pairs, hp1, hp2, hp3⟩

/-- C3: for every input line, indexing the tokens produced by
`tokenise_chords` from that same line never reaches the failure branch of
`chord_indicies`: every token is found by substring search in the remaining
unconsumed suffix, so the internal-consistency `raise` (modelled as `none`)
is unreachable. -/
theorem claim_C3_chord_indicies_never_fails (line : List Char) :
    (chord_indicies line).isSome = true := by
  obtain ⟨pairs, hp, _, _⟩ := tokenise_indexed line
  rw [hp]
  rfl

/-- C9: for every chord line with no nested and no unmatched brackets, the
`(offset, token)` pairs of `chord_indicies` reconstruct the original line:
offsets are the true starting columns, all characters outside the token
spans are whitespace (the tokens cover every non-whitespace character), and
concatenating the tokens in order with the original inter-token whitespace
(`reconstruct`) reproduces the line.  (The proof in fact never needs the
bracket hypothesis: the property holds for every line.) -/
theorem claim_C9_tokenizer_roundtrip (line : List Char)
    (h : wellBracketed line = true) :
    ∃ pairs, chord_indicies line = some pairs ∧
      reconstruct line 0 pairs = line ∧ reconOK line 0 pairs = true :=
  tokenise_indexed line

theorem claim_C9_tokenizer_roundtrip_witness :
    wellBracketed ("C  (To Chorus) | G".data) = true ∧
    ∃ pairs, chord_indicies ("C  (To Chorus) | G".data) = some pairs ∧
      reconstruct ("C  (To Chorus) | G".data) 0 pairs = "C  (To Chorus) | G".data ∧
      reconOK ("C  (To Chorus) | G".data) 0 pairs = true :=
  ⟨by decide, claim_C9_tokenizer_roundtrip ("C  (To Chorus) | G".data) (by decide)⟩

/-- C10: every token returned by `tokenise_chords` is nonempty, so the
line-role classifier's inspection of the first and last character of each
token (`t[0]`, `t[-1]`) never indexes into an empty string. -/
theorem claim_C10_tokens_nonempty (line t : List Char)
    (h : t ∈ tokenise_chords line) : t ≠ [] := by
  obtain ⟨c, t2, rfl, _⟩ := tokenise_good line t h
  simp

theorem claim_C10_tokens_nonempty_witness :
    "C7".data ∈ tokenise_chords ("C7  G".data) ∧ "C7".data ≠ [] :=
  ⟨by decide, claim_C10_tokens_nonempty ("C7  G".data) ("C7".data) (by decide)⟩

/-- C2 counterexample: the token `"N.C.hello"` — N.C. material followed by
arbitrary trailing text — nevertheless matches the chord grammar, because
the `nochords` alternation branch carries only the `^` anchor (the `$`
belongs to the other branch by regex alternation precedence).  This
refutes the claim that the grammar match is anchored at both ends for
every token. -/
theorem claim_C2_counterexample : chordMatch ("N.C.hello".data) = true := by decide

/-- C2 (amended): the chord-symbol branch of the grammar is anchored at
both ends, but the `N.C.` branch is start-anchored only: every token that
begins with `N.C.` matches the grammar regardless of the trailing
characters. -/
theorem claim_C2_nc_prefix_matches (s : List Char) :
    chordMatch ('N' :: '.' :: 'C' :: '.' :: s) = true := rfl

/-- C7 counterexample: the token `"H"` matches the chord grammar even
though its root letter is outside `A`–`G`, because the root-note character
class in `RE.CHORD` is `[A-JZ]`.  This refutes the claim that only roots
`A`–`G` are accepted. -/
theorem claim_C7_counterexample : chordMatch ("H".data) = true := by decide

/-- C7 (amended): a single-letter token matches the chord grammar exactly
when its letter lies in the root class `[A-JZ]` of the source regex —
`A`–`J` or `Z` — rather than the `A`–`G` range the claim states. -/
theorem claim_C7_root_range (c : Char) :
    chordMatch [c] = true ↔ (('A' ≤ c ∧ c ≤ 'J') ∨ c = 'Z') := by
  have hnc : nochords [c] = false := by
    show ((c = 'N' || c = 'n') && ncTail []) = false
    rw [show ncTail [] = false from rfl, Bool.and_false]
  have hb : chordBody [c] = isRoot c := by
    unfold chordBody noteG
    cases hr : isRoot c
    · simp [hr]
    · simp only [hr, if_true]
      decide
  have h1 : chordMatch [c] = isRoot c := by
    unfold chordMatch
    rw [hnc, hb, Bool.false_or]
  rw [h1]
  unfold isRoot
  simp [Bool.or_eq_true, Bool.and_eq_true, decide_eq_true_eq]

/-- C4: merging the chord line `"C       G       "` (chord `C` at column 0,
chord `G` at column 8) with the lyric line `"Amazing grace"` yields exactly
`"[C]Amazing [G]grace"`: the chord at column 0 attaches to the start of the
line with no inserted space and the chord at column 8 attaches immediately
before `"grace"`. -/
theorem claim_C4_merge_example :
    chordpro_line ("C       G       ".data) ("Amazing grace".data)
      = some ("[C]Amazing [G]grace".data) := by decide

/-- C6: evaluation of `fix_superscript_line` at a superscript line that is
longer than the chord line.  The `zip_longest` fill value `None` reaches
`out.append(c)` (or the final `out.append(c)` of the collision branch), and
`''.join(out)` then raises `TypeError` — modelled as `none`.  The claim
that the function is total over all pairs of lines is right about the
intent (and about the spec's stated algorithm); the code is wrong on every
input whose superscript line is strictly longer. -/
theorem claim_C6_superscript_longer_crashes :
    fix_superscript_line ("66".data) ("A".data) = none := by decide

/-- C1 counterexample: the line `"a verse"` contains the keyword `verse`
(and no CCLI line precedes), yet the scan leaves the state unchanged — in
particular it does not open a section named `"a verse"` — because
`RE.SECTION` is applied with `re.match`, which anchors the keyword
alternation at the start of the line.  This refutes the claim that the
keyword may occur at any position in the line. -/
theorem claim_C1_counterexample :
    parseLine initState ("a verse".data) = some initState ∧
    (parseLine initState ("a verse".data)).map ParseState.sectionName
      ≠ some (some ("a verse".data)) := by decide

/-- C1 (amended): a line is treated as a section header — any open section
is flushed (with a pending chord line committed as a `(chord, none)` pair)
and a new section named by the stripped line is opened — exactly when the
keyword match succeeds *at the start of the line* (`re.match`), the state
is not past a CCLI line, and the line itself does not match the CCLI
pattern (that branch is tested first). -/
theorem claim_C1_section_header_anchored (s : ParseState) (line : List Char)
    (h1 : pyTruthyOpt s.song.ccli = false)
    (h2 : reSearch matchCcliAt line = none)
    (h3 : sectionMatch line = true) :
    parseLine s line = some {
      song := { s.song with sections :=
        (if pyTruthyOpt s.sectionName then
          odSet s.song.sections (s.sectionName.getD [])
            (if pyTruthyOpt s.chordLine then s.sectionLines ++ [(s.chordLine, none)]
             else s.sectionLines)
         else s.song.sections) }
      sectionName := some (pyStrip line)
      sectionLines := []
      chordLine := none
      superscriptLine := s.superscriptLine } := by
  unfold parseLine
  simp only [h1, h2, h3, Bool.false_eq_true, if_false, if_true]
  by_cases hsn : pyTruthyOpt s.sectionName <;> simp [hsn]

theorem claim_C1_section_header_anchored_witness :
    parseLine c1State ("Chorus".data) = some {
      song := { c1State.song with sections :=
        (if pyTruthyOpt c1State.sectionName then
          odSet c1State.song.sections (c1State.sectionName.getD [])
            (if pyTruthyOpt c1State.chordLine then
              c1State.sectionLines ++ [(c1State.chordLine, none)]
             else c1State.sectionLines)
         else c1State.song.sections) }
      sectionName := some (pyStrip ("Chorus".data))
      sectionLines := []
      chordLine := none
      superscriptLine := c1State.superscriptLine } :=
  claim_C1_section_header_anchored c1State ("Chorus".data) (by decide) (by decide) (by decide)

/-- Once `song['ccli']` is truthy, an iteration only appends the line to
the legal text. -/
theorem ccli_locked_step (s : ParseState) (l : List Char)
    (h : pyTruthyOpt s.song.ccli = true) :
    parseLine s l = some { s with song := { s.song with legal := s.song.legal ++ l } } := by
  unfold parseLine
  rw [if_pos h]

/-- Once `song['ccli']` is truthy, the whole remaining scan only
concatenates the lines onto the legal text. -/
theorem ccli_locked_run : ∀ (lines : List (List Char)) (s : ParseState),
    pyTruthyOpt s.song.ccli = true →
    parseLines s lines
      = some { s with song := { s.song with legal := s.song.legal ++ lines.flatten } } := by
  intro lines
  induction lines with
  | nil =>
    intro s h
    simp [parseLines]
  | cons l ls ih =>
    intro s h
    unfold parseLines
    rw [ccli_locked_step s l h]
    show parseLines { s with song := { s.song with legal := s.song.legal ++ l } } ls = _
    rw [ih _ (by simpa using h)]
    simp [List.append_assoc]

theorem digitCap_ne_nil {cs cap : List Char} (h : digitCap cs = some cap) : cap ≠ [] := by
  unfold digitCap at h
  cases cs with
  | nil => cases h
  | cons d r =>
    by_cases hd : isDigitCh d
    · simp only [hd, if_true] at h
      injection h with h1
      rw [← h1]
      simp
    · simp [hd] at h

theorem matchCcliAt_ne_nil : ∀ {cs cap : List Char}, matchCcliAt cs = some cap → cap ≠ [] := by
  intro cs cap h
  unfold matchCcliAt at h
  repeat' split at h
  all_goals first
    | exact digitCap_ne_nil h
    | simp at h

theorem searchAux_ccli_ne_nil : ∀ (cs : List Char) (pos p : Nat) (cap : List Char),
    searchAux matchCcliAt cs pos = some (p, cap) → cap ≠ [] := by
  intro cs
  induction cs with
  | nil => intro pos p cap h; cases h
  | cons c rest ih =>
    intro pos p cap h
    unfold searchAux at h
    cases hm : matchCcliAt (c :: rest) with
    | some cap2 =>
      rw [hm] at h
      simp only [Option.some.injEq, Prod.mk.injEq] at h
      exact h.2 ▸ matchCcliAt_ne_nil hm
    | none =>
      rw [hm] at h
      exact ih (pos + 1) p cap h

/-- C5: once a line matching the CCLI pattern has been processed, every
subsequent line is appended verbatim to the legal text and is never parsed
as structure: the resulting state differs from the starting one only in
the `ccli` field (set by the matching line) and the `legal` text, which
receives the matching line and all subsequent lines concatenated; the
sections mapping and all other metadata are unchanged. -/
theorem claim_C5_legal_boundary (s : ParseState) (l : List Char) (p : Nat) (cap : List Char)
    (lines : List (List Char))
    (h1 : pyTruthyOpt s.song.ccli = false)
    (h2 : reSearch matchCcliAt l = some (p, cap)) :
    parseLines s (l :: lines) = some { s with song := { s.song with
      ccli := some cap
      legal := s.song.legal ++ l ++ lines.flatten } } := by
  have hcap : cap ≠ [] := searchAux_ccli_ne_nil l 0 p cap h2
  have hstep : parseLine s l = some { s with song := { s.song with
      ccli := some cap
      legal := s.song.legal ++ l } } := by
    unfold parseLine
    rw [if_neg (by simp [h1]), h2]
  unfold parseLines
  rw [hstep]
  show parseLines { s with song := { s.song with
      ccli := some cap
      legal := s.song.legal ++ l } } lines = _
  rw [ccli_locked_run lines _ (by simp [pyTruthyOpt, hcap])]

theorem claim_C5_legal_boundary_witness :
    parseLines initState (("CCLI Song # 12345".data) :: [("Verse 9".data)])
      = some { initState with song := { initState.song with
          ccli := some ("12345".data)
          legal := initState.song.legal ++ ("CCLI Song # 12345".data)
            ++ ([("Verse 9".data)] : List (List Char)).flatten } } :=
  claim_C5_legal_boundary initState ("CCLI Song # 12345".data) 0 ("12345".data)
    [("Verse 9".data)] (by decide) (by decide)

/-- C8 counterexample: the preamble line `"Amazing key: C"` — the word
`key` immediately followed by a colon, a space and a note — leaves the
state unchanged: neither the key nor the title is extracted, because
`RE.KEY` is `key\s+[-:]\s+([A-G][#b]?)`, which requires at least one
whitespace character *between* `key` and the separator.  This refutes the
claim that the `"key: X"` form behaves like `"key - X"`. -/
theorem claim_C8_counterexample :
    parseLine initState ("Amazing key: C".data) = some initState ∧
    (parseLine initState ("Amazing key: C".data)).map (fun st => st.song.key)
      ≠ some (some ("C".data)) := by decide

theorem matchKeyAt_not_k {c : Char} (h : ciEq c 'k' = false) (rest : List Char) :
    matchKeyAt (c :: rest) = none := by
  cases rest with
  | nil => rfl
  | cons a rest2 =>
    cases rest2 with
    | nil => rfl
    | cons b r => simp [matchKeyAt, h]

/-- The leftmost `RE.KEY` match on `<title> key<sep> <note>` (whitespace
before the separator, no `k`/`K` in the title) sits at the `k` of the
marker and captures the note. -/
theorem searchKey_marker (sep note : Char)
    (hsep : sep = '-' ∨ sep = ':') (hnote : note ∈ ['A', 'B', 'C', 'D', 'E', 'F', 'G']) :
    ∀ (title : List Char) (pos : Nat), (∀ c ∈ title, ciEq c 'k' = false) →
    searchAux matchKeyAt (title ++ ' ' :: 'k' :: 'e' :: 'y' :: ' ' :: sep :: ' ' :: [note]) pos
      = some (pos + title.length + 1, [note]) := by
  have hmk : matchKeyAt ('k' :: 'e' :: 'y' :: ' ' :: sep :: ' ' :: [note]) = some [note] := by
    rcases hsep with rfl | rfl <;> fin_cases hnote <;> decide
  intro title
  induction title with
  | nil =>
    intro pos _
    rw [List.nil_append]
    unfold searchAux
    rw [matchKeyAt_not_k (by decide)]
    show searchAux matchKeyAt ('k' :: 'e' :: 'y' :: ' ' :: sep :: ' ' :: [note]) (pos + 1)
      = some (pos + 0 + 1, [note])
    unfold searchAux
    rw [hmk]
  | cons c title ih =>
    intro pos hck
    rw [List.cons_append]
    unfold searchAux
    rw [matchKeyAt_not_k (hck c (by simp))]
    show searchAux matchKeyAt
        (title ++ ' ' :: 'k' :: 'e' :: 'y' :: ' ' :: sep :: ' ' :: [note]) (pos + 1)
      = some (pos + (c :: title).length + 1, [note])
    rw [ih (pos + 1) (fun x hx => hck x (by simp [hx]))]
    have harith : pos + 1 + title.length + 1 = pos + (c :: title).length + 1 := by
      simp only [List.length_cons]
      omega
    rw [harith]

theorem pyStripRight_append_space (t : List Char) :
    pyStripRight (t ++ [' ']) = pyStripRight t := by
  unfold pyStripRight
  rw [List.reverse_append]
  simp [List.dropWhile_cons, show isPyWS ' ' = true from rfl]

theorem pyStrip_append_space (t : List Char) : pyStrip (t ++ [' ']) = pyStrip t := by
  unfold pyStrip
  rw [pyStripRight_append_space]

/-- C8 (amended): the metadata extraction treats `"key - X"` and
`"key : X"` alike — for every preamble line `<title> key<sep> <note>` with
a whitespace character between `key` and the separator `-`/`:`, the key is
set to the note and the title to the stripped text before the marker.  The
form with the colon directly attached to `key` is rejected by `RE.KEY`
(see the counterexample). -/
theorem claim_C8_key_marker (s : ParseState) (title : List Char) (sep note : Char)
    (hsep : sep = '-' ∨ sep = ':')
    (hnote : note ∈ ['A', 'B', 'C', 'D', 'E', 'F', 'G'])
    (hck : ∀ c ∈ title, ciEq c 'k' = false)
    (h1 : pyTruthyOpt s.song.ccli = false)
    (hsn : pyTruthyOpt s.sectionName = false)
    (h2 : reSearch matchCcliAt
      (title ++ ' ' :: 'k' :: 'e' :: 'y' :: ' ' :: sep :: ' ' :: [note]) = none)
    (h3 : sectionMatch
      (title ++ ' ' :: 'k' :: 'e' :: 'y' :: ' ' :: sep :: ' ' :: [note]) = false)
    (h4 : is_chord_line (tokenise_chords
      (title ++ ' ' :: 'k' :: 'e' :: 'y' :: ' ' :: sep :: ' ' :: [note])) = false) :
    parseLine s (title ++ ' ' :: 'k' :: 'e' :: 'y' :: ' ' :: sep :: ' ' :: [note])
      = some { s with song := { s.song with
          key := some [note]
          title := some (pyStrip title) } } := by
  have hsearch : reSearch matchKeyAt
      (title ++ ' ' :: 'k' :: 'e' :: 'y' :: ' ' :: sep :: ' ' :: [note])
      = some (title.length + 1, [note]) := by
    unfold reSearch
    have h := searchKey_marker sep note hsep hnote title 0 hck
    simpa using h
  have htake : (title ++ ' ' :: 'k' :: 'e' :: 'y' :: ' ' :: sep :: ' ' :: [note]).take
      (title.length + 1) = title ++ [' '] := by
    rw [List.take_append 1]
    rfl
  unfold parseLine
  simp only [h1, h2, h3, h4, hsn, Bool.false_eq_true, if_false]
  rw [hsearch]
  show some { s with song := { s.song with
      key := some [note]
      title := some (pyStrip ((title ++ ' ' :: 'k' :: 'e' :: 'y' :: ' ' :: sep :: ' '
        :: [note]).take (title.length + 1))) } } = _
  rw [htake, pyStrip_append_space]

theorem claim_C8_key_marker_witness :
    parseLine initState
        ("Amazing Grace".data ++ ' ' :: 'k' :: 'e' :: 'y' :: ' ' :: ':' :: ' ' :: ['C'])
      = some { initState with song := { initState.song with
          key := some ['C']
          title := some (pyStrip ("Amazing Grace".data)) } } :=
  claim_C8_key_marker initState ("Amazing Grace".data) ':' 'C' (Or.inr rfl) (by decide)
    (by decide) (by decide) (by decide) (by decide) (by decide) (by decide)

end Setsight
